import Mathlib

/-!
Shallow embedding of the tracked-pointer garbage collector in
`src/gc_pointer.h` (class `Pointer<T, size>`), together with proofs of the
behavioural properties claimed for it.

Modelling choices:
* Addresses are natural numbers; `0` models `nullptr`.
* The per-specialization static `refContainer` (a `std::list<PtrDetails<T>>`)
  is a `List PtrDetails` threaded explicitly through every operation, paired
  with a log of the deallocations (`delete` / `delete []`) performed so far,
  so that "freed exactly once" and "freed via the array path" are observable.
* `refcount` is a C++ `unsigned`; increments and decrements are modelled with
  explicit wraparound modulo `2 ^ 32`.
* The template parameter `int size = 0` is passed explicitly to the
  operations that read it.  Every claim instantiates it with a non-negative
  value, and for non-negative values the `unsigned` conversions in the source
  are the identity, so it is embedded as a `Nat`.
* `gc_details.h` (`PtrDetails<T>`) and `gc_iterator.h` (`Iter<T>`) are not
  among the sources; the definitions that embed them are modelled from the
  spec and say so in their doc comments.
-/

namespace GC

/-- One entry of the deallocation log: the address handed to `delete` /
`delete []` by the sweep, and whether the array form (`delete []`) was used. -/
structure FreeEvent where
  addr : Nat
  viaArrayDelete : Bool
deriving Repr, DecidableEq

/-- Modelled from the spec: `PtrDetails<T>` lives in `gc_details.h`, which is
not part of the sources.  Spec §3 gives the Allocation Record as
{address, live_count, is_array, element_count}. -/
structure PtrDetails where
  memPtr : Nat
  refcount : Nat
  isArray : Bool
  arraySize : Nat
deriving Repr, DecidableEq

/-- Modelled from the spec: the record built by
`refContainer.emplace_back(ptr, size)`.  Spec §2: a fresh record is inserted
"with count 1"; spec §4.2: the allocation is tagged "as an array of the
specialization's fixed element count if that count is greater than zero, else
as a scalar". -/
def PtrDetails.make (ptr : Nat) (size : Nat) : PtrDetails :=
  { memPtr := ptr, refcount := 1, isArray := decide (0 < size), arraySize := size }

/-- `refcount--` on a C++ `unsigned`: decrement with wraparound. -/
def udec (c : Nat) : Nat := (c + 4294967295) % 4294967296

/-- `refcount++` on a C++ `unsigned`: increment with wraparound. -/
def uinc (c : Nat) : Nat := (c + 1) % 4294967296

/-- The mutable state shared by all `Pointer<T, size>` instances of one
specialization: the static `refContainer` plus the deallocation log. -/
structure GCState where
  refContainer : List PtrDetails
  freed : List FreeEvent
deriving Repr, DecidableEq

/-- `findPtrInfo(T *ptr)` (gc_pointer.h lines 219–228): linear scan of
`refContainer` for the first record with `p->memPtr == ptr`.  The source
returns the `end()` iterator when nothing matches; that is modelled by
`none`. -/
def findPtrInfo (l : List PtrDetails) (ptr : Nat) : Option PtrDetails :=
  l.find? (fun r => r.memPtr == ptr)

/-- `iter->refcount--` applied to the first record matching `p` (the record
`findPtrInfo` returns). -/
def decRefAt : List PtrDetails → Nat → List PtrDetails
  | [], _ => []
  | r :: rest, p =>
    if r.memPtr == p then { r with refcount := udec r.refcount } :: rest
    else r :: decRefAt rest p

/-- `iter->refcount++` applied to the first record matching `p`. -/
def incRefAt : List PtrDetails → Nat → List PtrDetails
  | [], _ => []
  | r :: rest, p =>
    if r.memPtr == p then { r with refcount := uinc r.refcount } :: rest
    else r :: incRefAt rest p

/-- The deallocation a record receives when its count is zero:
`delete [] iter->memPtr` when `iter->isArray`, else `delete iter->memPtr`
(gc_pointer.h lines 158–163). -/
def toEvent (r : PtrDetails) : FreeEvent :=
  { addr := r.memPtr, viaArrayDelete := r.isArray }

/-- The loop of `collect()` (gc_pointer.h lines 156–170): front-to-back scan
that deletes and erases every record with `refcount == 0`.  Returns the
records kept, the deallocations performed in order, and the `success` flag. -/
def collectGo : List PtrDetails → List PtrDetails × List FreeEvent × Bool
  | [] => ([], [], false)
  | r :: rest =>
    let res := collectGo rest
    if r.refcount == 0 then (res.1, toEvent r :: res.2.1, true)
    else (r :: res.1, res.2.1, res.2.2)

/-- `collect()` (gc_pointer.h lines 153–172). -/
def collect (st : GCState) : GCState × Bool :=
  let res := collectGo st.refContainer
  ({ refContainer := res.1, freed := st.freed ++ res.2.1 }, res.2.2)

/-- The decrement shared by `~Pointer()` (lines 118–121) and
`removePointer` (lines 176–179): look up the member `addr` and decrement its
record's count when found. -/
def decPointerRecord (st : GCState) (addr : Nat) : GCState :=
  if (findPtrInfo st.refContainer addr).isSome then
    { st with refContainer := decRefAt st.refContainer addr }
  else st

/-- `removePointer(T* ptr)` (gc_pointer.h lines 174–181).  The source body
ignores its parameter `ptr` and reads the member `addr`, so the member is
passed here as `addr` and the unused parameter is kept. -/
def removePointer (st : GCState) (addr : Nat) (ptr : Nat) : GCState :=
  (collect (decPointerRecord st addr)).1

/-- `addPointer(T* ptr, int length)` (gc_pointer.h lines 183–194) of the
specialization `size`: increments an existing record for `ptr`, otherwise
appends `PtrDetails(ptr, size)` — the source passes the template parameter
`size`, not `length`, to `emplace_back`.  It also sets the member
`addr = ptr` and returns it, modelled by the second component. -/
def addPointer (size : Nat) (st : GCState) (ptr : Nat) (length : Nat) :
    GCState × Nat :=
  ( if (findPtrInfo st.refContainer ptr).isSome then
      { st with refContainer := incRefAt st.refContainer ptr }
    else
      { st with refContainer := st.refContainer ++ [PtrDetails.make ptr size] }
  , ptr)

/-- The per-instance fields of `Pointer<T, size>`: `addr`, `isArray`,
`arraySize` (the static members live in `GCState`). -/
structure Pointer where
  addr : Nat
  isArray : Bool
  arraySize : Nat
deriving Repr, DecidableEq

/-- `Pointer(T *t)` (gc_pointer.h lines 126–137): sets
`addr = t; isArray = size > 0; arraySize = size;` and calls
`addPointer(t, size)`.  The `atexit(shutdown)` registration is modelled by
the separate `shutdown` operation. -/
def pointerCtor (size : Nat) (st : GCState) (t : Nat) : GCState × Pointer :=
  ( (addPointer size st t size).1
  , { addr := t, isArray := decide (0 < size), arraySize := size } )

/-- `~Pointer()` (gc_pointer.h lines 116–123): decrement the record for the
held `addr` when present, then `collect()`. -/
def ptrDtor (st : GCState) (p : Pointer) : GCState :=
  (collect (decPointerRecord st p.addr)).1

/-- The raw-address assignment `operator=(T *t)` (gc_pointer.h lines 58–62):
`removePointer(addr); return addPointer(t, size);`.  Note only the member
`addr` changes; `isArray` and `arraySize` are untouched by assignment. -/
def assignRaw (size : Nat) (st : GCState) (p : Pointer) (t : Nat) :
    GCState × Pointer :=
  let st1 := removePointer st p.addr p.addr
  let res := addPointer size st1 t size
  (res.1, { p with addr := res.2 })

/-- `Pointer()` (gc_pointer.h lines 43–45): the body `Pointer(nullptr);`
constructs and immediately destroys a temporary `Pointer` from the null
address; it does not delegate, so the fields of the object under
construction stay indeterminate.  Only the effect on the shared state is
modelled. -/
def defaultCtorEffect (size : Nat) (st : GCState) : GCState :=
  let res := pointerCtor size st 0
  ptrDtor res.1 res.2

/-- `shutdown()` (gc_pointer.h lines 230–241): return if the container is
empty, otherwise set every record's `refcount` to zero and `collect()`. -/
def shutdown (st : GCState) : GCState :=
  if st.refContainer.length = 0 then st
  else
    (collect { st with
      refContainer := st.refContainer.map (fun r => { r with refcount := 0 }) }).1

/-- Modelled from the spec: `Iter<T>` lives in `gc_iterator.h`, which is not
part of the sources.  Spec §4.4 gives the Range View as
{current position, lower bound, upper bound}; positions are element
addresses. -/
structure Iter where
  pos : Nat
  lo : Nat
  hi : Nat
deriving Repr, DecidableEq

/-- Modelled from the spec (§4.4, §7): dereferencing a view positioned
outside its recorded span — at or beyond the upper bound — signals the
out-of-range error instead of reading adjacent memory; in range it reads the
element at the current position. -/
def Iter.deref (it : Iter) : Except Unit Nat :=
  if it.lo ≤ it.pos ∧ it.pos < it.hi then Except.ok it.pos else Except.error ()

/-- Modelled from the spec (§4.4): advancing is always permitted, including
to and past the upper bound. -/
def Iter.next (it : Iter) : Iter := { it with pos := it.pos + 1 }

/-- Modelled from the spec (§4.4): equality of two views compares the
current position only. -/
def Iter.eqv (a b : Iter) : Bool := a.pos == b.pos

/-- `begin()` (gc_pointer.h lines 79–86):
`Iter(addr, addr, addr + _size)` with `_size = isArray ? arraySize : 1`. -/
def Pointer.begin (p : Pointer) : Iter :=
  let s := if p.isArray then p.arraySize else 1
  { pos := p.addr, lo := p.addr, hi := p.addr + s }

/-- `end()` (gc_pointer.h lines 88–95):
`Iter(addr + _size, addr, addr + _size)`. -/
def Pointer.endIter (p : Pointer) : Iter :=
  let s := if p.isArray then p.arraySize else 1
  { pos := p.addr + s, lo := p.addr, hi := p.addr + s }

/-- The count recorded for address `p`, when a record for `p` exists. -/
def lookupCount (l : List PtrDetails) (p : Nat) : Option Nat :=
  (findPtrInfo l p).map PtrDetails.refcount

/-- Well-formedness of a `refContainer`, true in every state reachable by
the public operations: distinct records track distinct addresses, and live
counts are at least 1 and away from the `unsigned` wraparound boundary. -/
def WF (l : List PtrDetails) : Prop :=
  (l.map PtrDetails.memPtr).Nodup ∧
    ∀ r ∈ l, 1 ≤ r.refcount ∧ r.refcount < 4294967295

/-- All records of one specialization share the array shape dictated by the
template parameter `size`. -/
def ShapeOK (size : Nat) (l : List PtrDetails) : Prop :=
  ∀ r ∈ l, r.isArray = decide (0 < size) ∧ r.arraySize = size

theorem collectGo_kept (l : List PtrDetails) :
    (collectGo l).1 = l.filter (fun r => !(r.refcount == 0)) := by
  induction l with
  | nil => rfl
  | cons r rest ih =>
    by_cases h : r.refcount = 0 <;>
      simp [collectGo, List.filter_cons, h, ih]

theorem collectGo_events (l : List PtrDetails) :
    (collectGo l).2.1 = (l.filter (fun r => r.refcount == 0)).map toEvent := by
  induction l with
  | nil => rfl
  | cons r rest ih =>
    by_cases h : r.refcount = 0 <;>
      simp [collectGo, List.filter_cons, h, ih]

theorem collectGo_success (l : List PtrDetails) :
    (collectGo l).2.2 = l.any (fun r => r.refcount == 0) := by
  induction l with
  | nil => rfl
  | cons r rest ih =>
    by_cases h : r.refcount = 0 <;>
      simp [collectGo, h, ih]

theorem filter_zero_of_filter_nonzero (l : List PtrDetails) :
    (l.filter (fun r => !(r.refcount == 0))).filter
      (fun r => r.refcount == 0) = [] := by
  rw [List.filter_eq_nil_iff]
  intro r hr
  simp only [List.mem_filter] at hr
  simpa using hr.2

theorem filter_nonzero_idem (l : List PtrDetails) :
    (l.filter (fun r => !(r.refcount == 0))).filter
      (fun r => !(r.refcount == 0)) = l.filter (fun r => !(r.refcount == 0)) := by
  rw [List.filter_eq_self]
  intro r hr
  exact (List.mem_filter.mp hr).2

theorem any_zero_of_filter_nonzero (l : List PtrDetails) :
    (l.filter (fun r => !(r.refcount == 0))).any
      (fun r => r.refcount == 0) = false := by
  rw [List.any_eq_false]
  intro r hr
  simpa using (List.mem_filter.mp hr).2

/-- C7: `collect()` returns true iff it freed at least one record: the
deallocation log grows exactly by the events for the zero-count records and
`collect` returns true exactly when that extension is nonempty; calling
`collect()` again immediately, with no intervening count changes, returns
false and leaves the entire state (Ledger and log) unchanged. -/
theorem collect_true_iff_freed_and_idempotent (st : GCState) :
    ((collect st).1.freed =
      st.freed ++ (st.refContainer.filter (fun r => r.refcount == 0)).map toEvent) ∧
    ((collect st).2 = true ↔
      (st.refContainer.filter (fun r => r.refcount == 0)).map toEvent ≠ []) ∧
    ((collect (collect st).1).2 = false) ∧
    ((collect (collect st).1).1 = (collect st).1) := by
  refine ⟨?_, ?_, ?_, ?_⟩
  · simp [collect, collectGo_events]
  · simp only [collect, collectGo_success]
    constructor
    · intro h
      rcases List.any_eq_true.mp h with ⟨r, hr, hz⟩
      intro hnil
      rw [List.map_eq_nil_iff, List.filter_eq_nil_iff] at hnil
      exact hnil r hr hz
    · intro h
      rcases List.exists_mem_of_ne_nil _ h with ⟨e, he⟩
      rw [List.mem_map] at he
      rcases he with ⟨r, hr, _⟩
      rw [List.mem_filter] at hr
      exact List.any_eq_true.mpr ⟨r, hr.1, hr.2⟩
  · simp [collect, collectGo_success, collectGo_kept, any_zero_of_filter_nonzero]
  · simp [collect, collectGo_kept, collectGo_events, filter_nonzero_idem,
      filter_zero_of_filter_nonzero]

theorem filter_nonzero_of_all_zero (l : List PtrDetails) :
    ((l.map (fun r => { r with refcount := 0 })).filter
      (fun r => !(r.refcount == 0))) = [] := by
  rw [List.filter_eq_nil_iff]
  intro r hr
  rcases List.mem_map.mp hr with ⟨s, _, hs⟩
  subst hs
  simp

theorem filter_zero_of_all_zero (l : List PtrDetails) :
    ((l.map (fun r => { r with refcount := 0 })).filter
      (fun r => r.refcount == 0)).map toEvent = l.map toEvent := by
  have h : (l.map (fun r => { r with refcount := 0 })).filter
      (fun r => r.refcount == 0) = l.map (fun r => { r with refcount := 0 }) := by
    rw [List.filter_eq_self]
    intro r hr
    rcases List.mem_map.mp hr with ⟨s, _, hs⟩
    subst hs
    simp
  rw [h, List.map_map]
  rfl

/-- C8: the shutdown routine forces every record's count to zero and runs
one sweep: afterwards the Ledger of the specialization is empty, and the
deallocation log has grown by exactly one event per previously tracked
record — via that record's array-aware path — regardless of how large the
counts were before. -/
theorem shutdown_empties_and_frees_all (st : GCState) :
    (shutdown st).refContainer = [] ∧
    (shutdown st).freed = st.freed ++ st.refContainer.map toEvent := by
  by_cases h : st.refContainer.length = 0
  · rw [List.length_eq_zero] at h
    simp [shutdown, h]
  · have h' : ¬ st.refContainer.length = 0 := h
    refine ⟨?_, ?_⟩
    · simp [shutdown, h', collect, collectGo_kept, filter_nonzero_of_all_zero]
    · simp [shutdown, h', collect, collectGo_events, filter_zero_of_all_zero]

theorem countP_eq_one_of_unique (l : List PtrDetails)
    (hnd : (l.map PtrDetails.memPtr).Nodup) (r : PtrDetails) (hr : r ∈ l)
    (p : PtrDetails → Bool) (hp : p r = true)
    (himp : ∀ x ∈ l, p x = true → x.memPtr = r.memPtr) :
    l.countP p = 1 := by
  induction l with
  | nil => cases hr
  | cons a rest ih =>
    simp only [List.map_cons, List.nodup_cons] at hnd
    rcases List.mem_cons.mp hr with hra | hrr
    · subst hra
      have hz : rest.countP p = 0 := by
        rw [List.countP_eq_zero]
        intro x hx hpx
        exact hnd.1 (List.mem_map.mpr
          ⟨x, hx, himp x (List.mem_cons_of_mem _ hx) hpx⟩)
      simp [List.countP_cons, hz, hp]
    · have hpa : p a = false := by
        by_contra hcon
        have := himp a (List.mem_cons_self a rest) (by simpa using hcon)
        exact hnd.1 (this ▸ List.mem_map.mpr ⟨r, hrr, rfl⟩)
      rw [List.countP_cons, hpa]
      exact ih hnd.2 hrr (fun x hx hpx => himp x (List.mem_cons_of_mem _ hx) hpx)

/-- C6: one sweep frees every zero-count record exactly once — once by
address, and once with exactly the deallocation event recorded on that entry
(its address together with its array-aware path) — and removes exactly the
freed records from the Ledger (freeing and removal never happen one without
the other); records with nonzero counts survive and no event touches their
addresses; and a re-entrant (immediately repeated) sweep performs no
deallocation at all. -/
theorem collect_frees_each_dead_record_once (st : GCState)
    (hnd : (st.refContainer.map PtrDetails.memPtr).Nodup) :
    (∀ r ∈ st.refContainer, r.refcount = 0 →
      ((collectGo st.refContainer).2.1.countP (fun e => e.addr == r.memPtr) = 1 ∧
       (collectGo st.refContainer).2.1.countP (fun e => e == toEvent r) = 1 ∧
       r ∉ (collect st).1.refContainer)) ∧
    (∀ r ∈ st.refContainer, r.refcount ≠ 0 →
      (r ∈ (collect st).1.refContainer ∧
       ∀ e ∈ (collectGo st.refContainer).2.1, e.addr ≠ r.memPtr)) ∧
    ((collect st).1.refContainer =
      st.refContainer.filter (fun r => !(r.refcount == 0))) ∧
    ((collect st).1.freed = st.freed ++ (collectGo st.refContainer).2.1) ∧
    ((collectGo (collect st).1.refContainer).2.1 = []) := by
  have hkept : (collect st).1.refContainer =
      st.refContainer.filter (fun r => !(r.refcount == 0)) := by
    simp [collect, collectGo_kept]
  have hndf : ((st.refContainer.filter
      (fun r => r.refcount == 0)).map PtrDetails.memPtr).Nodup :=
    hnd.sublist ((st.refContainer.filter_sublist).map _)
  refine ⟨?_, ?_, hkept, by simp [collect], ?_⟩
  · intro r hr hz
    have hrf : r ∈ st.refContainer.filter (fun r => r.refcount == 0) :=
      List.mem_filter.mpr ⟨hr, by simp [hz]⟩
    refine ⟨?_, ?_, ?_⟩
    · rw [collectGo_events, List.countP_map]
      exact countP_eq_one_of_unique _ hndf r hrf _ (by simp [toEvent])
        (fun x _ hpx => by simpa [toEvent] using hpx)
    · rw [collectGo_events, List.countP_map]
      exact countP_eq_one_of_unique _ hndf r hrf _ (by simp)
        (fun x _ hpx => by
          have : toEvent x = toEvent r := by simpa using hpx
          simpa [toEvent, FreeEvent.mk.injEq] using congrArg FreeEvent.addr this)
    · rw [hkept]
      intro hmem
      have := (List.mem_filter.mp hmem).2
      simp [hz] at this
  · intro r hr hz
    refine ⟨?_, ?_⟩
    · rw [hkept]
      exact List.mem_filter.mpr ⟨hr, by simpa using hz⟩
    · intro e he
      rw [collectGo_events] at he
      rcases List.mem_map.mp he with ⟨x, hx, hex⟩
      rcases List.mem_filter.mp hx with ⟨hxl, hx0⟩
      subst hex
      intro haddr
      have hxr : x = r := List.inj_on_of_nodup_map hnd hxl hr haddr
      subst hxr
      simp_all
  · rw [hkept, collectGo_events, filter_zero_of_filter_nonzero]
    rfl

/-- C6 witness: a concrete two-record Ledger — a dead scalar record at
address 100 and a live array record at address 200 — on which the sweep
frees the dead record exactly once via the scalar path and keeps the live
one untouched. -/
theorem collect_frees_each_dead_record_once_witness :
    ((collectGo [⟨100, 0, false, 0⟩, ⟨200, 1, true, 3⟩]).2.1.countP
        (fun e => e.addr == 100) = 1 ∧
      (collectGo [⟨100, 0, false, 0⟩, ⟨200, 1, true, 3⟩]).2.1.countP
        (fun e => e == toEvent ⟨100, 0, false, 0⟩) = 1 ∧
      (⟨100, 0, false, 0⟩ : PtrDetails) ∉
        (collect ⟨[⟨100, 0, false, 0⟩, ⟨200, 1, true, 3⟩], []⟩).1.refContainer) ∧
    ((⟨200, 1, true, 3⟩ : PtrDetails) ∈
        (collect ⟨[⟨100, 0, false, 0⟩, ⟨200, 1, true, 3⟩], []⟩).1.refContainer) :=
  ⟨(collect_frees_each_dead_record_once
        ⟨[⟨100, 0, false, 0⟩, ⟨200, 1, true, 3⟩], []⟩ (by decide)).1
      ⟨100, 0, false, 0⟩ (by decide) rfl,
    ((collect_frees_each_dead_record_once
        ⟨[⟨100, 0, false, 0⟩, ⟨200, 1, true, 3⟩], []⟩ (by decide)).2.1
      ⟨200, 1, true, 3⟩ (by decide) (by decide)).1⟩

theorem findPtrInfo_append_none (l : List PtrDetails) (r : PtrDetails) (p : Nat)
    (h : findPtrInfo l p = none) :
    findPtrInfo (l ++ [r]) p = findPtrInfo [r] p := by
  induction l with
  | nil => rfl
  | cons a rest ih =>
    simp only [findPtrInfo, List.find?_cons] at h
    cases ha : (a.memPtr == p) with
    | true => rw [ha] at h; cases h
    | false =>
      rw [ha] at h
      show List.find? (fun x => x.memPtr == p) ((a :: rest) ++ [r]) = _
      rw [List.cons_append, List.find?_cons_of_neg _ (by simp [ha])]
      exact ih h

theorem decRefAt_append_none (l : List PtrDetails) (r : PtrDetails) (p : Nat)
    (h : findPtrInfo l p = none) (hr : r.memPtr = p) :
    decRefAt (l ++ [r]) p = l ++ [{ r with refcount := udec r.refcount }] := by
  induction l with
  | nil => simp [decRefAt, hr]
  | cons a rest ih =>
    simp only [findPtrInfo, List.find?_cons] at h
    cases ha : (a.memPtr == p) with
    | true => rw [ha] at h; cases h
    | false =>
      rw [ha] at h
      simp [decRefAt, ha, ih h]

theorem filter_zero_of_all_pos (l : List PtrDetails)
    (h : ∀ r ∈ l, 1 ≤ r.refcount) :
    l.filter (fun r => r.refcount == 0) = [] := by
  rw [List.filter_eq_nil_iff]
  intro r hr
  have := h r hr
  simp only [beq_iff_eq]
  omega

theorem filter_nonzero_of_all_pos (l : List PtrDetails)
    (h : ∀ r ∈ l, 1 ≤ r.refcount) :
    l.filter (fun r => !(r.refcount == 0)) = l := by
  rw [List.filter_eq_self]
  intro r hr
  have := h r hr
  simp only [Bool.not_eq_eq_eq_not, Bool.not_true, beq_eq_false_iff_ne, ne_eq]
  omega

/-- C2 (code bug): raw self-assignment with a live count of 1 transiently
frees the very allocation being assigned.  A `Pointer` holding address 100
as the only reference (record count 1) executes `operator=(T *t)` with
`t == addr`: `removePointer` drops the count to 0 and `collect()` deletes
the allocation at 100 and erases its record, after which `addPointer`
re-registers the now-dangling address with a fresh count-1 record.  The log
shows the free of address 100 performed inside the assignment. -/
theorem assignRaw_self_transiently_frees :
    ((assignRaw 0 ⟨[⟨100, 1, false, 0⟩], []⟩ ⟨100, false, 0⟩ 100).1.freed
        = [⟨100, false⟩]) ∧
    ((assignRaw 0 ⟨[⟨100, 1, false, 0⟩], []⟩ ⟨100, false, 0⟩ 100).1.refContainer
        = [⟨100, 1, false, 0⟩]) := by decide

/-- C3 counterexample: constructing a `Pointer` from the null address on an
empty Ledger does insert a record (for address 0), and a Ledger lookup of
the null address does match that record — refuting both "inserts no record
into the Ledger" and "a Ledger lookup of a null address never matches any
record". -/
theorem null_construction_registers_null :
    ((pointerCtor 0 ⟨[], []⟩ 0).1.refContainer ≠ []) ∧
    ((findPtrInfo (pointerCtor 0 ⟨[], []⟩ 0).1.refContainer 0).isSome = true) := by
  decide

/-- C3 (amended): the default constructor's body `Pointer(nullptr);`
constructs and immediately destroys a temporary `Pointer` for the null
address (it does not delegate, so the fields of the object under
construction stay indeterminate).  Constructing from null registers null
like any other address: when null was untracked it appends a count-1 record
for address 0, which a Ledger lookup of null then matches; the temporary's
destruction decrements that record and the sweep deletes null (a no-op
`delete`) and removes the record, so the net Ledger is unchanged. -/
theorem defaultCtor_roundtrip (size : Nat) (st : GCState)
    (hpos : ∀ r ∈ st.refContainer, 1 ≤ r.refcount)
    (h0 : findPtrInfo st.refContainer 0 = none) :
    ((pointerCtor size st 0).1.refContainer
        = st.refContainer ++ [PtrDetails.make 0 size]) ∧
    (findPtrInfo (pointerCtor size st 0).1.refContainer 0
        = some (PtrDetails.make 0 size)) ∧
    ((defaultCtorEffect size st).refContainer = st.refContainer) ∧
    ((defaultCtorEffect size st).freed
        = st.freed ++ [toEvent (PtrDetails.make 0 size)]) := by
  have hreg : (pointerCtor size st 0).1.refContainer
      = st.refContainer ++ [PtrDetails.make 0 size] := by
    simp [pointerCtor, addPointer, h0]
  have hfind : findPtrInfo (pointerCtor size st 0).1.refContainer 0
      = some (PtrDetails.make 0 size) := by
    rw [hreg, findPtrInfo_append_none _ _ _ h0]
    simp [findPtrInfo, PtrDetails.make, List.find?]
  have hfreed : (pointerCtor size st 0).1.freed = st.freed := by
    simp [pointerCtor, addPointer, h0]
  have hdec : decRefAt (pointerCtor size st 0).1.refContainer 0
      = st.refContainer ++ [{ PtrDetails.make 0 size with refcount := 0 }] := by
    rw [hreg, decRefAt_append_none _ _ _ h0 rfl]
    norm_num [PtrDetails.make, udec]
  have haddr : (pointerCtor size st 0).2.addr = 0 := rfl
  have hd1 : (decPointerRecord (pointerCtor size st 0).1 0).refContainer
      = st.refContainer ++ [{ PtrDetails.make 0 size with refcount := 0 }] := by
    simp only [decPointerRecord, hfind, Option.isSome_some, if_true]
    exact hdec
  have hd2 : (decPointerRecord (pointerCtor size st 0).1 0).freed = st.freed := by
    simp only [decPointerRecord, hfind, Option.isSome_some, if_true]
    exact hfreed
  refine ⟨hreg, hfind, ?_, ?_⟩
  · simp only [defaultCtorEffect, ptrDtor, haddr, collect, collectGo_kept, hd1]
    rw [List.filter_append, filter_nonzero_of_all_pos _ hpos]
    simp
  · simp only [defaultCtorEffect, ptrDtor, haddr, collect, collectGo_events,
      hd1, hd2]
    rw [List.filter_append, filter_zero_of_all_pos _ hpos]
    simp [toEvent, PtrDetails.make]

/-- C3 witness: the amended behaviour at the empty Ledger with
specialization size 3: the default constructor's temporary registers and
then removes a record for null, leaving the Ledger empty and logging one
(array-path, since size 3 > 0) deallocation of address 0. -/
theorem defaultCtor_roundtrip_witness :
    ((defaultCtorEffect 3 ⟨[], []⟩).refContainer = ([] : List PtrDetails)) ∧
    ((defaultCtorEffect 3 ⟨[], []⟩).freed = [toEvent (PtrDetails.make 0 3)]) :=
  ⟨(defaultCtor_roundtrip 3 ⟨[], []⟩ (by simp) rfl).2.2.1,
   (defaultCtor_roundtrip 3 ⟨[], []⟩ (by simp) rfl).2.2.2⟩

theorem udec_eq_sub_one {c : Nat} (h1 : 1 ≤ c) (h2 : c < 4294967296) :
    udec c = c - 1 := by
  unfold udec
  omega

theorem udec_one : udec 1 = 0 := by decide

theorem uinc_eq_add_one {c : Nat} (h : c + 1 < 4294967296) :
    uinc c = c + 1 := by
  unfold uinc
  omega

theorem findPtrInfo_decRefAt_self (l : List PtrDetails) (p : Nat) :
    findPtrInfo (decRefAt l p) p
      = (findPtrInfo l p).map (fun r => { r with refcount := udec r.refcount }) := by
  induction l with
  | nil => rfl
  | cons a rest ih =>
    by_cases ha : (a.memPtr == p) = true
    · simp [decRefAt, ha, findPtrInfo, List.find?_cons, ha]
    · have ha' : (a.memPtr == p) = false := by simpa using ha
      simp only [decRefAt, ha', Bool.false_eq_true, if_false, findPtrInfo,
        List.find?_cons, ha'] at ih ⊢
      exact ih

theorem findPtrInfo_decRefAt_ne (l : List PtrDetails) (p q : Nat) (h : q ≠ p) :
    findPtrInfo (decRefAt l p) q = findPtrInfo l q := by
  induction l with
  | nil => rfl
  | cons a rest ih =>
    by_cases ha : (a.memPtr == p) = true
    · have hap : a.memPtr = p := by simpa using ha
      have haq : (a.memPtr == q) = false := by
        simp only [beq_eq_false_iff_ne, ne_eq, hap]
        exact fun hqp => h hqp.symm
      simp [decRefAt, ha, findPtrInfo, List.find?_cons, haq]
    · have ha' : (a.memPtr == p) = false := by simpa using ha
      cases haq : (a.memPtr == q) with
      | true => simp [decRefAt, ha', findPtrInfo, List.find?_cons, haq]
      | false =>
        simp only [decRefAt, ha', Bool.false_eq_true, if_false, findPtrInfo,
          List.find?_cons, haq] at ih ⊢
        exact ih

theorem findPtrInfo_incRefAt_self (l : List PtrDetails) (p : Nat) :
    findPtrInfo (incRefAt l p) p
      = (findPtrInfo l p).map (fun r => { r with refcount := uinc r.refcount }) := by
  induction l with
  | nil => rfl
  | cons a rest ih =>
    by_cases ha : (a.memPtr == p) = true
    · simp [incRefAt, ha, findPtrInfo, List.find?_cons, ha]
    · have ha' : (a.memPtr == p) = false := by simpa using ha
      simp only [incRefAt, ha', Bool.false_eq_true, if_false, findPtrInfo,
        List.find?_cons, ha'] at ih ⊢
      exact ih

theorem findPtrInfo_incRefAt_ne (l : List PtrDetails) (p q : Nat) (h : q ≠ p) :
    findPtrInfo (incRefAt l p) q = findPtrInfo l q := by
  induction l with
  | nil => rfl
  | cons a rest ih =>
    by_cases ha : (a.memPtr == p) = true
    · have hap : a.memPtr = p := by simpa using ha
      have haq : (a.memPtr == q) = false := by
        simp only [beq_eq_false_iff_ne, ne_eq, hap]
        exact fun hqp => h hqp.symm
      simp [incRefAt, ha, findPtrInfo, List.find?_cons, haq]
    · have ha' : (a.memPtr == p) = false := by simpa using ha
      cases haq : (a.memPtr == q) with
      | true => simp [incRefAt, ha', findPtrInfo, List.find?_cons, haq]
      | false =>
        simp only [incRefAt, ha', Bool.false_eq_true, if_false, findPtrInfo,
          List.find?_cons, haq] at ih ⊢
        exact ih

theorem map_memPtr_decRefAt (l : List PtrDetails) (p : Nat) :
    (decRefAt l p).map PtrDetails.memPtr = l.map PtrDetails.memPtr := by
  induction l with
  | nil => rfl
  | cons a rest ih =>
    by_cases ha : (a.memPtr == p) = true
    · simp [decRefAt, ha]
    · have ha' : (a.memPtr == p) = false := by simpa using ha
      simp [decRefAt, ha', ih]

theorem findPtrInfo_eq_none_of_not_mem_map (l : List PtrDetails) (q : Nat)
    (h : q ∉ l.map PtrDetails.memPtr) : findPtrInfo l q = none := by
  rw [findPtrInfo, List.find?_eq_none]
  intro r hr
  simp only [beq_iff_eq]
  intro hq
  exact h (List.mem_map.mpr ⟨r, hr, hq⟩)

theorem findPtrInfo_filter_none (l : List PtrDetails) (f : PtrDetails → Bool)
    (q : Nat) (h : findPtrInfo l q = none) :
    findPtrInfo (l.filter f) q = none := by
  rw [findPtrInfo, List.find?_eq_none] at h ⊢
  intro r hr
  exact h r (List.mem_filter.mp hr).1

theorem findPtrInfo_filter_nonzero_of_pos (l : List PtrDetails) (q : Nat)
    (r : PtrDetails) (hq : findPtrInfo l q = some r) (hr : r.refcount ≠ 0) :
    findPtrInfo (l.filter (fun x => !(x.refcount == 0))) q = some r := by
  induction l with
  | nil => cases hq
  | cons a rest ih =>
    by_cases ha : (a.memPtr == q) = true
    · have har : a = r := by
        simpa [findPtrInfo, List.find?_cons, ha] using hq
      subst har
      have hkeep : (!(a.refcount == 0)) = true := by simpa using hr
      simp [List.filter_cons, hkeep, findPtrInfo, List.find?_cons, ha]
    · have ha' : (a.memPtr == q) = false := by simpa using ha
      have hq' : findPtrInfo rest q = some r := by
        simpa [findPtrInfo, List.find?_cons, ha'] using hq
      by_cases hk : (!(a.refcount == 0)) = true
      · simp only [List.filter_cons, hk, if_true, findPtrInfo,
          List.find?_cons, ha']
        exact ih hq'
      · have hk' : (!(a.refcount == 0)) = false := by simpa using hk
        simp only [List.filter_cons, hk', Bool.false_eq_true, if_false]
        exact ih hq'

theorem findPtrInfo_filter_nonzero_of_zero (l : List PtrDetails) (q : Nat)
    (r : PtrDetails) (hnd : (l.map PtrDetails.memPtr).Nodup)
    (hq : findPtrInfo l q = some r) (hr : r.refcount = 0) :
    findPtrInfo (l.filter (fun x => !(x.refcount == 0))) q = none := by
  induction l with
  | nil => cases hq
  | cons a rest ih =>
    simp only [List.map_cons, List.nodup_cons] at hnd
    by_cases ha : (a.memPtr == q) = true
    · have har : a = r := by
        simpa [findPtrInfo, List.find?_cons, ha] using hq
      subst har
      have hdrop : (!(a.refcount == 0)) = false := by simp [hr]
      simp only [List.filter_cons, hdrop, Bool.false_eq_true, if_false]
      apply findPtrInfo_filter_none
      apply findPtrInfo_eq_none_of_not_mem_map
      have haq : a.memPtr = q := by simpa using ha
      rw [← haq]
      exact hnd.1
    · have ha' : (a.memPtr == q) = false := by simpa using ha
      have hq' : findPtrInfo rest q = some r := by
        simpa [findPtrInfo, List.find?_cons, ha'] using hq
      by_cases hk : (!(a.refcount == 0)) = true
      · simp only [List.filter_cons, hk, if_true, findPtrInfo,
          List.find?_cons, ha']
        exact ih hnd.2 hq'
      · have hk' : (!(a.refcount == 0)) = false := by simpa using hk
        simp only [List.filter_cons, hk', Bool.false_eq_true, if_false]
        exact ih hnd.2 hq'

theorem findPtrInfo_append_some (l l₂ : List PtrDetails) (q : Nat)
    (r : PtrDetails) (h : findPtrInfo l q = some r) :
    findPtrInfo (l ++ l₂) q = some r := by
  induction l with
  | nil => cases h
  | cons a rest ih =>
    by_cases ha : (a.memPtr == q) = true
    · have har : a = r := by
        simpa [findPtrInfo, List.find?_cons, ha] using h
      subst har
      simp [findPtrInfo, List.cons_append, List.find?_cons, ha]
    · have ha' : (a.memPtr == q) = false := by simpa using ha
      have h' : findPtrInfo rest q = some r := by
        simpa [findPtrInfo, List.find?_cons, ha'] using h
      simp only [findPtrInfo, List.cons_append, List.find?_cons, ha'] at ih ⊢
      exact ih h'

theorem filter_zero_decRefAt (l : List PtrDetails) (A : Nat) (rA : PtrDetails)
    (hpos : ∀ x ∈ l, 1 ≤ x.refcount) (hb : rA.refcount < 4294967296)
    (hfind : findPtrInfo l A = some rA) :
    (decRefAt l A).filter (fun x => x.refcount == 0)
      = if rA.refcount = 1 then [{ rA with refcount := 0 }] else [] := by
  induction l with
  | nil => cases hfind
  | cons a rest ih =>
    by_cases ha : (a.memPtr == A) = true
    · have har : a = rA := by
        simpa [findPtrInfo, List.find?_cons, ha] using hfind
      subst har
      have h1 : 1 ≤ a.refcount := hpos a (List.mem_cons_self a rest)
      have hrest : rest.filter (fun x => x.refcount == 0) = [] :=
        filter_zero_of_all_pos rest
          (fun x hx => hpos x (List.mem_cons_of_mem _ hx))
      have hud : udec a.refcount = a.refcount - 1 := udec_eq_sub_one h1 hb
      by_cases hc : a.refcount = 1
      · have hz : (({ a with refcount := udec a.refcount } :
            PtrDetails).refcount == 0) = true := by
          simp [hc, udec_one]
        simp only [decRefAt, ha, if_true, List.filter_cons, hz, hrest, hc,
          if_true]
        simp [hc, udec_one]
      · have hz : (({ a with refcount := udec a.refcount } :
            PtrDetails).refcount == 0) = false := by
          simp only [beq_eq_false_iff_ne, ne_eq, hud]
          omega
        simp [decRefAt, ha, List.filter_cons, hz, hrest, hc]
    · have ha' : (a.memPtr == A) = false := by simpa using ha
      have hfind' : findPtrInfo rest A = some rA := by
        simpa [findPtrInfo, List.find?_cons, ha'] using hfind
      have h1 : 1 ≤ a.refcount := hpos a (List.mem_cons_self a rest)
      have hz : (a.refcount == 0) = false := by
        simp only [beq_eq_false_iff_ne, ne_eq]
        omega
      simp only [decRefAt, ha', Bool.false_eq_true, if_false,
        List.filter_cons, hz]
      exact ih (fun x hx => hpos x (List.mem_cons_of_mem _ hx)) hfind'

theorem addPointer_freed (size : Nat) (st : GCState) (ptr length : Nat) :
    (addPointer size st ptr length).1.freed = st.freed := by
  unfold addPointer
  by_cases h : (findPtrInfo st.refContainer ptr).isSome = true <;> simp [h]

theorem collect_fst_refContainer (st : GCState) :
    (collect st).1.refContainer
      = st.refContainer.filter (fun r => !(r.refcount == 0)) := by
  simp [collect, collectGo_kept]

theorem collect_fst_freed (st : GCState) :
    (collect st).1.freed
      = st.freed ++ (st.refContainer.filter (fun r => r.refcount == 0)).map toEvent := by
  simp [collect, collectGo_events]

/-- C5: reassigning a `Pointer` that holds address `A` (with record `rA`) to
a different raw address `B` decrements `A`'s record — when the count was 1
the record is gone afterwards and the deallocation of `A` is performed
during the assignment (the log grows by exactly that event); when it was
larger the record survives with count one less and nothing is freed — and
increments `B`'s record, creating it with count 1 when absent; afterwards
the pointer holds `B`. -/
theorem assignRaw_dec_old_inc_new (size : Nat) (st : GCState) (p : Pointer)
    (B : Nat) (rA : PtrDetails) (hWF : WF st.refContainer)
    (hA : findPtrInfo st.refContainer p.addr = some rA) (hAB : p.addr ≠ B) :
    ((assignRaw size st p B).1.freed
        = st.freed ++ (if rA.refcount = 1 then [toEvent rA] else [])) ∧
    (lookupCount (assignRaw size st p B).1.refContainer p.addr
        = if rA.refcount = 1 then none else some (rA.refcount - 1)) ∧
    (lookupCount (assignRaw size st p B).1.refContainer B
        = some ((lookupCount st.refContainer B).getD 0 + 1)) ∧
    ((assignRaw size st p B).2.addr = B) := by
  obtain ⟨hnd, hcnt⟩ := hWF
  have hrAmem : rA ∈ st.refContainer := List.mem_of_find?_eq_some hA
  have hrA1 : 1 ≤ rA.refcount := (hcnt rA hrAmem).1
  have hrAb : rA.refcount < 4294967296 := by
    have := (hcnt rA hrAmem).2
    omega
  have hdp : decPointerRecord st p.addr
      = { st with refContainer := decRefAt st.refContainer p.addr } := by
    simp [decPointerRecord, hA]
  have hrc1 : (removePointer st p.addr p.addr).refContainer
      = (decRefAt st.refContainer p.addr).filter (fun x => !(x.refcount == 0)) := by
    simp only [removePointer]
    rw [hdp, collect_fst_refContainer]
  have hfr1 : (removePointer st p.addr p.addr).freed
      = st.freed ++ (if rA.refcount = 1 then [toEvent rA] else []) := by
    simp only [removePointer]
    rw [hdp, collect_fst_freed]
    have hz := filter_zero_decRefAt st.refContainer p.addr rA
      (fun x hx => (hcnt x hx).1) hrAb hA
    rw [hz]
    by_cases hc : rA.refcount = 1 <;> simp [hc, toEvent]
  have hdecA : findPtrInfo (decRefAt st.refContainer p.addr) p.addr
      = some { rA with refcount := udec rA.refcount } := by
    rw [findPtrInfo_decRefAt_self, hA]
    rfl
  have hnddec : ((decRefAt st.refContainer p.addr).map PtrDetails.memPtr).Nodup := by
    rw [map_memPtr_decRefAt]
    exact hnd
  have hA1 : findPtrInfo (removePointer st p.addr p.addr).refContainer p.addr
      = if rA.refcount = 1 then none
        else some { rA with refcount := rA.refcount - 1 } := by
    rw [hrc1]
    by_cases hc : rA.refcount = 1
    · rw [if_pos hc]
      exact findPtrInfo_filter_nonzero_of_zero _ _ _ hnddec hdecA
        (by simp [hc, udec_one])
    · rw [if_neg hc]
      have hrec : ({ rA with refcount := udec rA.refcount } : PtrDetails)
          = { rA with refcount := rA.refcount - 1 } := by
        rw [udec_eq_sub_one hrA1 hrAb]
      rw [hrec] at hdecA
      refine findPtrInfo_filter_nonzero_of_pos _ _ _ hdecA ?_
      simp only []
      omega
  have hB1 : findPtrInfo (removePointer st p.addr p.addr).refContainer B
      = findPtrInfo st.refContainer B := by
    rw [hrc1]
    have hdB : findPtrInfo (decRefAt st.refContainer p.addr) B
        = findPtrInfo st.refContainer B :=
      findPtrInfo_decRefAt_ne _ _ _ (Ne.symm hAB)
    cases hfB : findPtrInfo st.refContainer B with
    | none => rw [findPtrInfo_filter_none _ _ _ (hdB.trans hfB)]
    | some rB =>
      have hrBmem : rB ∈ st.refContainer := List.mem_of_find?_eq_some hfB
      rw [findPtrInfo_filter_nonzero_of_pos _ _ _ (hdB.trans hfB)
        (by have := (hcnt rB hrBmem).1; omega)]
  refine ⟨?_, ?_, ?_, rfl⟩
  · show (addPointer size (removePointer st p.addr p.addr) B size).1.freed = _
    rw [addPointer_freed, hfr1]
  · show lookupCount
      (addPointer size (removePointer st p.addr p.addr) B size).1.refContainer
      p.addr = _
    cases hfB1 : findPtrInfo (removePointer st p.addr p.addr).refContainer B with
    | some rB =>
      simp only [addPointer, hfB1, Option.isSome_some, if_true]
      rw [lookupCount, findPtrInfo_incRefAt_ne _ _ _ hAB, hA1]
      by_cases hc : rA.refcount = 1 <;> simp [hc]
    | none =>
      simp only [addPointer, hfB1, Option.isSome_none, Bool.false_eq_true,
        if_false]
      rw [lookupCount]
      by_cases hc : rA.refcount = 1
      · have hnone : findPtrInfo
            (removePointer st p.addr p.addr).refContainer p.addr = none := by
          rw [hA1, if_pos hc]
        rw [findPtrInfo_append_none _ _ _ hnone]
        have : ((PtrDetails.make B size).memPtr == p.addr) = false := by
          simp [PtrDetails.make]
          exact fun h => hAB h.symm
        simp [findPtrInfo, List.find?, this, hc]
      · have hsome : findPtrInfo
            (removePointer st p.addr p.addr).refContainer p.addr
            = some { rA with refcount := rA.refcount - 1 } := by
          rw [hA1, if_neg hc]
        rw [findPtrInfo_append_some _ _ _ _ hsome]
        simp [hc]
  · show lookupCount
      (addPointer size (removePointer st p.addr p.addr) B size).1.refContainer
      B = _
    cases hfB : findPtrInfo st.refContainer B with
    | some rB =>
      have hfB1 : findPtrInfo (removePointer st p.addr p.addr).refContainer B
          = some rB := by rw [hB1, hfB]
      have hrBmem : rB ∈ st.refContainer := List.mem_of_find?_eq_some hfB
      have hub : uinc rB.refcount = rB.refcount + 1 :=
        uinc_eq_add_one (by have := (hcnt rB hrBmem).2; omega)
      simp only [addPointer, hfB1, Option.isSome_some, if_true]
      rw [lookupCount, findPtrInfo_incRefAt_self, hfB1]
      simp [lookupCount, hfB, hub]
    | none =>
      have hfB1 : findPtrInfo (removePointer st p.addr p.addr).refContainer B
          = none := by rw [hB1, hfB]
      simp only [addPointer, hfB1, Option.isSome_none, Bool.false_eq_true,
        if_false]
      rw [lookupCount, findPtrInfo_append_none _ _ _ hfB1]
      simp only [findPtrInfo] at hfB
      simp [findPtrInfo, List.find?, PtrDetails.make, lookupCount, hfB]

/-- C5 witness: a Ledger tracking address 100 with count 1; assigning the
pointer holding 100 to fresh address 200 frees 100 during the assignment,
removes its record, and creates a count-1 record for 200. -/
theorem assignRaw_dec_old_inc_new_witness :
    ((assignRaw 0 ⟨[⟨100, 1, false, 0⟩], []⟩ ⟨100, false, 0⟩ 200).1.freed
        = [toEvent ⟨100, 1, false, 0⟩]) ∧
    (lookupCount
        (assignRaw 0 ⟨[⟨100, 1, false, 0⟩], []⟩ ⟨100, false, 0⟩ 200).1.refContainer
        100 = none) ∧
    (lookupCount
        (assignRaw 0 ⟨[⟨100, 1, false, 0⟩], []⟩ ⟨100, false, 0⟩ 200).1.refContainer
        200 = some 1) ∧
    ((assignRaw 0 ⟨[⟨100, 1, false, 0⟩], []⟩ ⟨100, false, 0⟩ 200).2.addr = 200) :=
  assignRaw_dec_old_inc_new 0 ⟨[⟨100, 1, false, 0⟩], []⟩ ⟨100, false, 0⟩ 200
    ⟨100, 1, false, 0⟩ (by constructor <;> decide) rfl (by decide)

theorem iter_next_iterate (it : Iter) (i : Nat) :
    Iter.next^[i] it = { it with pos := it.pos + i } := by
  induction i with
  | zero => simp
  | succ n ih =>
    rw [Function.iterate_succ_apply', ih]
    simp [Iter.next, Nat.add_assoc]

/-- C9: the Range View produced by `begin()`/`end()` of a `Pointer` built by
the raw constructor spans exactly `size` elements when the specialization is
an array (`size > 0`) and exactly one element when it is scalar; every
position strictly inside the span dereferences to the element at the
expected address, in address order; advancing to the upper bound reaches a
view equal to `end()` (equality compares positions); and dereferencing any
view positioned at or beyond its upper bound — `end()` in particular —
signals the out-of-range error instead of reading memory. -/
theorem range_view_span_and_bounds (size : Nat) (st : GCState) (t : Nat) :
    ((pointerCtor size st t).2.endIter.pos
        = (pointerCtor size st t).2.begin.pos + (if 0 < size then size else 1)) ∧
    (∀ i, i < (if 0 < size then size else 1) →
      (Iter.next^[i] (pointerCtor size st t).2.begin).deref
        = Except.ok (t + i)) ∧
    (Iter.eqv
        (Iter.next^[if 0 < size then size else 1] (pointerCtor size st t).2.begin)
        (pointerCtor size st t).2.endIter = true) ∧
    (∀ it : Iter, it.hi ≤ it.pos → it.deref = Except.error ()) ∧
    ((pointerCtor size st t).2.endIter.deref = Except.error ()) := by
  have hb : (pointerCtor size st t).2.begin
      = { pos := t, lo := t, hi := t + (if 0 < size then size else 1) } := by
    by_cases hs : 0 < size <;> simp [pointerCtor, Pointer.begin, hs]
  have he : (pointerCtor size st t).2.endIter
      = { pos := t + (if 0 < size then size else 1), lo := t,
          hi := t + (if 0 < size then size else 1) } := by
    by_cases hs : 0 < size <;> simp [pointerCtor, Pointer.endIter, hs]
  refine ⟨?_, ?_, ?_, ?_, ?_⟩
  · rw [hb, he]
  · intro i hi
    rw [hb, iter_next_iterate]
    simp only [Iter.deref]
    rw [if_pos ⟨by omega, by omega⟩]
  · rw [hb, he, iter_next_iterate]
    simp [Iter.eqv]
  · intro it h
    simp only [Iter.deref]
    rw [if_neg (by omega)]
  · rw [he]
    simp only [Iter.deref]
    rw [if_neg (by omega)]

/-- C9 witness: for the array specialization of size 5 at address 100, the
third position of the view dereferences to address 102 and dereferencing
`end()` signals the out-of-range error. -/
theorem range_view_span_and_bounds_witness :
    ((Iter.next^[2] (pointerCtor 5 ⟨[], []⟩ 100).2.begin).deref
        = Except.ok 102) ∧
    ((pointerCtor 5 ⟨[], []⟩ 100).2.endIter.deref = Except.error ()) :=
  ⟨(range_view_span_and_bounds 5 ⟨[], []⟩ 100).2.1 2 (by decide),
   (range_view_span_and_bounds 5 ⟨[], []⟩ 100).2.2.2.2⟩

theorem shapeOK_decRefAt {size : Nat} {l : List PtrDetails} (p : Nat)
    (h : ShapeOK size l) : ShapeOK size (decRefAt l p) := by
  induction l with
  | nil => exact h
  | cons a rest ih =>
    by_cases ha : (a.memPtr == p) = true
    · intro r hr
      simp only [decRefAt, ha, if_true, List.mem_cons] at hr
      rcases hr with hr | hr
      · rw [hr]
        exact h a (List.mem_cons_self a rest)
      · exact h r (List.mem_cons_of_mem _ hr)
    · have ha' : (a.memPtr == p) = false := by simpa using ha
      intro r hr
      simp only [decRefAt, ha', Bool.false_eq_true, if_false,
        List.mem_cons] at hr
      rcases hr with hr | hr
      · rw [hr]
        exact h a (List.mem_cons_self a rest)
      · exact ih (fun x hx => h x (List.mem_cons_of_mem _ hx)) r hr

theorem shapeOK_incRefAt {size : Nat} {l : List PtrDetails} (p : Nat)
    (h : ShapeOK size l) : ShapeOK size (incRefAt l p) := by
  induction l with
  | nil => exact h
  | cons a rest ih =>
    by_cases ha : (a.memPtr == p) = true
    · intro r hr
      simp only [incRefAt, ha, if_true, List.mem_cons] at hr
      rcases hr with hr | hr
      · rw [hr]
        exact h a (List.mem_cons_self a rest)
      · exact h r (List.mem_cons_of_mem _ hr)
    · have ha' : (a.memPtr == p) = false := by simpa using ha
      intro r hr
      simp only [incRefAt, ha', Bool.false_eq_true, if_false,
        List.mem_cons] at hr
      rcases hr with hr | hr
      · rw [hr]
        exact h a (List.mem_cons_self a rest)
      · exact ih (fun x hx => h x (List.mem_cons_of_mem _ hx)) r hr

theorem shapeOK_filter {size : Nat} {l : List PtrDetails}
    (f : PtrDetails → Bool) (h : ShapeOK size l) :
    ShapeOK size (l.filter f) :=
  fun r hr => h r (List.mem_filter.mp hr).1

theorem shapeOK_append_make {size : Nat} {l : List PtrDetails} (p : Nat)
    (h : ShapeOK size l) : ShapeOK size (l ++ [PtrDetails.make p size]) := by
  intro r hr
  rcases List.mem_append.mp hr with hr | hr
  · exact h r hr
  · rcases List.mem_singleton.mp hr with rfl
    exact ⟨rfl, rfl⟩

theorem shapeOK_map_zero {size : Nat} {l : List PtrDetails}
    (h : ShapeOK size l) :
    ShapeOK size (l.map (fun r => { r with refcount := 0 })) := by
  intro r hr
  rcases List.mem_map.mp hr with ⟨s, hs, rfl⟩
  exact h s hs

theorem shapeOK_addPointer {size : Nat} {st : GCState} (ptr length : Nat)
    (h : ShapeOK size st.refContainer) :
    ShapeOK size (addPointer size st ptr length).1.refContainer := by
  by_cases hf : (findPtrInfo st.refContainer ptr).isSome = true
  · simpa [addPointer, hf] using shapeOK_incRefAt ptr h
  · have hf' : (findPtrInfo st.refContainer ptr).isSome = false := by
      simpa using hf
    simpa [addPointer, hf'] using shapeOK_append_make ptr h

theorem shapeOK_collect {size : Nat} {st : GCState}
    (h : ShapeOK size st.refContainer) :
    ShapeOK size (collect st).1.refContainer := by
  rw [collect_fst_refContainer]
  exact shapeOK_filter _ h

theorem shapeOK_decPointerRecord {size : Nat} {st : GCState} (addr : Nat)
    (h : ShapeOK size st.refContainer) :
    ShapeOK size (decPointerRecord st addr).refContainer := by
  by_cases hf : (findPtrInfo st.refContainer addr).isSome = true
  · simpa [decPointerRecord, hf] using shapeOK_decRefAt addr h
  · have hf' : (findPtrInfo st.refContainer addr).isSome = false := by
      simpa using hf
    simpa [decPointerRecord, hf'] using h

/-- C10 (implicit invariant): within one specialization's Ledger every
record has the array shape fixed by the template parameter `size` —
`isArray = (size > 0)` and `arraySize = size`.  `addPointer` ignores its
per-call `length` argument entirely; a record inserted for an untracked
address is exactly `PtrDetails(ptr, size)`; every operation of the
specialization preserves the shape invariant; and the constructor stamps
the same shape on the `Pointer`'s own fields. -/
theorem ledger_shape_invariant (size : Nat) (st : GCState)
    (ptr length₁ length₂ t B : Nat) (p : Pointer)
    (hS : ShapeOK size st.refContainer) :
    (addPointer size st ptr length₁ = addPointer size st ptr length₂) ∧
    (findPtrInfo st.refContainer ptr = none →
      (addPointer size st ptr length₁).1.refContainer
        = st.refContainer ++ [PtrDetails.make ptr size]) ∧
    ShapeOK size (addPointer size st ptr length₁).1.refContainer ∧
    ShapeOK size (collect st).1.refContainer ∧
    ShapeOK size (pointerCtor size st t).1.refContainer ∧
    ShapeOK size (ptrDtor st p).refContainer ∧
    ShapeOK size (assignRaw size st p B).1.refContainer ∧
    ShapeOK size (shutdown st).refContainer ∧
    ShapeOK size (defaultCtorEffect size st).refContainer ∧
    ((pointerCtor size st t).2.isArray = decide (0 < size)) ∧
    ((pointerCtor size st t).2.arraySize = size) := by
  refine ⟨rfl, ?_, ?_, ?_, ?_, ?_, ?_, ?_, ?_, rfl, rfl⟩
  · intro h
    simp [addPointer, h]
  · exact shapeOK_addPointer ptr length₁ hS
  · exact shapeOK_collect hS
  · show ShapeOK size (addPointer size st t size).1.refContainer
    exact shapeOK_addPointer t size hS
  · show ShapeOK size (collect (decPointerRecord st p.addr)).1.refContainer
    exact shapeOK_collect (shapeOK_decPointerRecord p.addr hS)
  · show ShapeOK size
      (addPointer size (removePointer st p.addr p.addr) B size).1.refContainer
    exact shapeOK_addPointer B size
      (shapeOK_collect (shapeOK_decPointerRecord p.addr hS))
  · by_cases h : st.refContainer.length = 0
    · simpa [shutdown, h] using hS
    · have h' : ¬ st.refContainer.length = 0 := h
      simp only [shutdown, h', if_false]
      exact shapeOK_collect (shapeOK_map_zero hS)
  · show ShapeOK size (collect (decPointerRecord (pointerCtor size st 0).1
      (pointerCtor size st 0).2.addr)).1.refContainer
    refine shapeOK_collect (shapeOK_decPointerRecord _ ?_)
    show ShapeOK size (addPointer size st 0 size).1.refContainer
    exact shapeOK_addPointer 0 size hS

/-- C10 witness: for the array specialization of size 2 and a well-shaped
one-record Ledger, inserting untracked address 60 appends exactly
`PtrDetails(60, 2)` — independently of the per-call length argument 7 —
and the constructor stamps the array shape on the new `Pointer`. -/
theorem ledger_shape_invariant_witness :
    ((addPointer 2 ⟨[⟨50, 1, true, 2⟩], []⟩ 60 7).1.refContainer
        = [⟨50, 1, true, 2⟩] ++ [PtrDetails.make 60 2]) ∧
    ((pointerCtor 2 ⟨[⟨50, 1, true, 2⟩], []⟩ 60).2.isArray = decide (0 < 2)) :=
  ⟨(ledger_shape_invariant 2 ⟨[⟨50, 1, true, 2⟩], []⟩ 60 7 7 60 60
      ⟨50, true, 2⟩ (by unfold ShapeOK; decide)).2.1 rfl,
   (ledger_shape_invariant 2 ⟨[⟨50, 1, true, 2⟩], []⟩ 60 7 7 60 60
      ⟨50, true, 2⟩ (by unfold ShapeOK; decide)).2.2.2.2.2.2.2.2.2.1⟩

end GC
